import Mathlib

/-!
# Verification of `wsl-clip-bridge` (src/main.rs)

A shallow embedding of the clipboard-bridge cache in Lean 4.

The program persists at most three files under one storage directory:
`image.bin` (raw image bytes), `image.format` (a one-line MIME string,
the "sidecar"), and `text.txt` (raw text bytes).  We model this state
explicitly (`CacheState`).  Time is a natural number of abstract ticks
(the code only compares `SystemTime` durations, never reads wall-clock
structure); a regular file carries its byte content and its
modification time.  External capabilities (the image codec, path
canonicalization, the environment, file reading) are passed as explicit
parameters.  Paths are lists of components, mirroring the component-wise
semantics of Rust's `Path::starts_with`.

The downscaling dimension arithmetic of the source is IEEE `f32`; it is
modelled exactly by rounding rationals to 24-bit significands
(round-to-nearest, ties-to-even), which is faithful for the normal,
non-overflowing range all inputs here stay in.
-/

namespace Wcb

/-- A regular file: raw byte content plus modification time.
Models a file on disk as observed through `fs::metadata` /
`File::open`+`read_to_end`. -/
structure FileData where
  content : List Nat
  mtime : Nat
deriving DecidableEq, Repr

/-- A small text file holding a single string (the `image.format`
sidecar, read via `fs::read_to_string`). -/
structure StrFile where
  content : String
  mtime : Nat
deriving DecidableEq, Repr

/-- The three fixed-name cache files of the storage directory:
`image.bin`, `image.format`, `text.txt`.  `none` means the file does
not exist. -/
structure CacheState where
  image : Option FileData
  imageFormat : Option StrFile
  text : Option FileData
deriving DecidableEq, Repr

/-- `is_file_non_empty` (main.rs:114-116):
`fs::metadata(path).is_ok_and(|m| m.is_file() && m.len() > 0)`.
In the model every existing cache entry is a regular file, so the
check reduces to existence plus non-empty content. -/
def is_file_non_empty (f : Option FileData) : Bool :=
  match f with
  | none => false
  | some d => decide (0 < d.content.length)

/-- `is_file_fresh` (main.rs:488-496):
metadata must resolve (the file exists), `modified()` must succeed,
`SystemTime::now().duration_since(modified)` must succeed — which in
Rust fails exactly when the modification time is later than `now` —
and then `elapsed <= ttl && is_file_non_empty(path)`. -/
def is_file_fresh (f : Option FileData) (now ttl : Nat) : Bool :=
  match f with
  | none => false
  | some d =>
    decide (d.mtime ≤ now) &&
      (decide (now - d.mtime ≤ ttl) && is_file_non_empty (some d))

/-- Rust `str::starts_with` on string slices: byte-wise prefix, which for
valid UTF-8 is character-wise prefix. -/
def strStartsWith (s p : String) : Bool :=
  p.data.isPrefixOf s.data

/-- Rust `str::trim`: strip leading and trailing whitespace. -/
def strTrim (s : String) : String :=
  ⟨((s.data.dropWhile Char.isWhitespace).reverse.dropWhile Char.isWhitespace).reverse⟩

/-- The image MIME kinds recognized by `output_type` and `input_type`
(main.rs:167, main.rs:329). -/
def imageMimes : List String :=
  ["image/png", "image/jpeg", "image/jpg", "image/gif", "image/webp"]

/-- The stored-format check of `output_type` (main.rs:172-176): the sidecar
must be readable, and after trimming must equal the requested MIME, or be
`image/jpeg` while `image/jpg` was requested. -/
def formatMatches (mime : String) (sc : Option StrFile) : Bool :=
  match sc with
  | none => false
  | some s =>
    let stored := strTrim s.content
    mime == stored || (mime == "image/jpg" && stored == "image/jpeg")

/-- `output_type` (main.rs:148-194).  Result: (exit code, bytes streamed to
stdout if any, cache state after the call).  Branches mirror the source:
a `text/plain*` request serves the fresh text slot or evicts a stale one;
an image request serves the fresh image slot when the sidecar matches,
keeps everything when fresh but mismatched, and evicts payload+sidecar
when stale; any other MIME kind exits 1 untouched. -/
def output_type (mime : String) (st : CacheState) (now ttl : Nat) :
    Nat × Option (List Nat) × CacheState :=
  if strStartsWith mime "text/plain" then
    if is_file_fresh st.text now ttl then
      (0, st.text.map (·.content), st)
    else if st.text.isSome then
      (1, none, { st with text := none })
    else
      (1, none, st)
  else if mime ∈ imageMimes then
    if is_file_fresh st.image now ttl then
      if formatMatches mime st.imageFormat then
        (0, st.image.map (·.content), st)
      else
        (1, none, st)
    else if st.image.isSome then
      (1, none, { st with image := none, imageFormat := none })
    else
      (1, none, st)
  else
    (1, none, st)

/-- `print_targets` (main.rs:118-146).  Result: (lines printed, cache state
after the call).  A fresh image slot lists its trimmed sidecar format plus
the `image/jpg` alias when the format is `image/jpeg`; a stale image slot
is evicted (payload and sidecar).  A fresh text slot then lists
`text/plain;charset=utf-8` and `STRING`; a stale text slot is evicted. -/
def print_targets (st : CacheState) (now ttl : Nat) : List String × CacheState :=
  let imgStep : List String × CacheState :=
    if is_file_fresh st.image now ttl then
      match st.imageFormat with
      | some sc =>
        let f := strTrim sc.content
        ((if f == "image/jpeg" then [f, "image/jpg"] else [f]), st)
      | none => ([], st)
    else if st.image.isSome then
      ([], { st with image := none, imageFormat := none })
    else ([], st)
  let st1 := imgStep.2
  if is_file_fresh st1.text now ttl then
    (imgStep.1 ++ ["text/plain;charset=utf-8", "STRING"], st1)
  else if st1.text.isSome then
    (imgStep.1, { st1 with text := none })
  else (imgStep.1, st1)

/-- `BridgeConfig` (main.rs:412-424): the parsed configuration record; every
field is optional. -/
structure BridgeConfig where
  ttl_secs : Option Nat := none
  max_image_dimension : Option Nat := none
  max_file_size_mb : Option Nat := none
  restrict_to_home : Option Bool := none
  allowed_directories : Option (List (List String)) := none
deriving DecidableEq, Repr

/-- A filesystem path as its list of components; `Path::starts_with` is
component-wise prefix. -/
abbrev RPath := List String

/-- The three distinct denials of `validate_file_access`
(main.rs:207-211, 223-227, 245-249). -/
inductive Denial where
  | fileTooLarge
  | outsideHome
  | notAllowed
deriving DecidableEq, Repr

/-- `path.canonicalize().unwrap_or_else(|_| path.to_path_buf())`
(main.rs:221, 235): canonicalize, falling back to the path as given. -/
def canonOrSelf (canon : RPath → Option RPath) (p : RPath) : RPath :=
  (canon p).getD p

/-- The size check of `validate_file_access` (main.rs:201-213): denies iff
`max_file_size_mb` is present and positive, the file's metadata resolves,
and the length exceeds `max_mb * 1024 * 1024` bytes.  The multiplication
is `u64` arithmetic (main.rs:205), so it wraps modulo `2 ^ 64` for
`max_mb ≥ 2 ^ 44` (release-build semantics). -/
def sizeDenied (c : BridgeConfig) (fileSize : Option Nat) : Bool :=
  match c.max_file_size_mb, fileSize with
  | some maxMb, some len =>
    decide (0 < maxMb) && decide (maxMb * 1024 * 1024 % 2 ^ 64 < len)
  | _, _ => false

/-- The home-restriction check of `validate_file_access` (main.rs:216-229):
denies iff `restrict_to_home` is `Some(true)`, `HOME` is set, and the
canonicalized path does not start with the `HOME` value taken verbatim
(`PathBuf::from(home)` — the home directory itself is not canonicalized). -/
def homeDenied (c : BridgeConfig) (canon : RPath → Option RPath)
    (home : Option RPath) (path : RPath) : Bool :=
  match c.restrict_to_home, home with
  | some true, some h => !(h.isPrefixOf (canonOrSelf canon path))
  | _, _ => false

/-- The allow-list check of `validate_file_access` (main.rs:232-251):
denies iff `allowed_directories` is present, non-empty, and no entry is a
prefix of the canonicalized path. -/
def allowedDenied (c : BridgeConfig) (canon : RPath → Option RPath)
    (path : RPath) : Bool :=
  match c.allowed_directories with
  | some dirs =>
    !dirs.isEmpty && !(dirs.any fun dir => dir.isPrefixOf (canonOrSelf canon path))
  | none => false

/-- `validate_file_access` (main.rs:196-254).  With no config every path is
accepted; otherwise the three checks run in order and the first failing one
reports its denial. -/
def validate_file_access (cfg : Option BridgeConfig)
    (canon : RPath → Option RPath) (home : Option RPath)
    (fileSize : Option Nat) (path : RPath) : Except Denial Unit :=
  match cfg with
  | none => .ok ()
  | some c =>
    if sizeDenied c fileSize then .error .fileTooLarge
    else if homeDenied c canon home path then .error .outsideHome
    else if allowedDenied c canon path then .error .notAllowed
    else .ok ()

/-- A non-negative dyadic rational `m / 2 ^ k`.  Every finite non-negative
IEEE binary32 value is of this form; the f32 model below computes with
these exactly. -/
structure Dyadic where
  m : Nat
  k : Nat
deriving DecidableEq, Repr

/-- The rational value of a dyadic. -/
def Dyadic.toQ (d : Dyadic) : ℚ := (d.m : ℚ) / 2 ^ d.k

/-- `⌊log₂ n⌋` by structural recursion on explicit fuel (so that the
kernel can evaluate it); correct whenever `1 ≤ n ≤ fuel`. -/
def log2fuel : Nat → Nat → Nat
  | 0, _ => 0
  | fuel + 1, n => if 2 ≤ n then log2fuel fuel (n / 2) + 1 else 0

/-- The least `c` with `b ≤ a * 2 ^ c`, by structural recursion on explicit
fuel; correct whenever `1 ≤ a` and `b ≤ a * 2 ^ fuel`. -/
def upFromBelowFuel : Nat → Nat → Nat → Nat
  | 0, _, _ => 0
  | fuel + 1, a, b => if b ≤ a then 0 else upFromBelowFuel fuel (2 * a) b + 1

/-- Round the fraction `num / den` to the nearest integer, ties to the even
candidate. -/
def rne (num den : Nat) : Nat :=
  if den < 2 * (num % den) then num / den + 1
  else if 2 * (num % den) < den then num / den
  else if num / den % 2 = 0 then num / den else num / den + 1

/-- Round the non-negative rational `num / den` to the nearest IEEE
binary32 value (round-to-nearest, ties-to-even): the result is the nearest
integral multiple of `2 ^ (e - 23)`, where `2 ^ e ≤ num / den <
2 ^ (e + 1)`.  Inputs in this development stay well inside the normal
range, so overflow and subnormals are not modelled. -/
def roundRat32 (num den : Nat) : Dyadic :=
  if num = 0 ∨ den = 0 then ⟨0, 0⟩
  else if den ≤ num then
    let e := log2fuel num (num / den)
    if e ≤ 23 then
      ⟨rne (num * 2 ^ (23 - e)) den, 23 - e⟩
    else
      ⟨rne num (den * 2 ^ (e - 23)) * 2 ^ (e - 23), 0⟩
  else
    let c := upFromBelowFuel den num den
    ⟨rne (num * 2 ^ (23 + c)) den, 23 + c⟩

/-- Rust `n as f32` for an unsigned integer. -/
def f32ofNat (n : Nat) : Dyadic := roundRat32 n 1

/-- IEEE f32 division: round the exact quotient of the operand values. -/
def f32div (a b : Dyadic) : Dyadic :=
  roundRat32 (a.m * 2 ^ b.k) (b.m * 2 ^ a.k)

/-- IEEE f32 multiplication: round the exact product of the operand
values. -/
def f32mul (a b : Dyadic) : Dyadic :=
  roundRat32 (a.m * b.m) (2 ^ (a.k + b.k))

/-- Rust `x as u32` on a non-negative in-range float: truncation toward
zero. -/
def f32toU32 (d : Dyadic) : Nat := d.m / 2 ^ d.k

/-- The new-dimension computation of `downscale_image_if_needed`
(main.rs:282-284): `scale = max_dim as f32 / max_current as f32`,
`new_width = (width as f32 * scale) as u32`, and likewise for the height,
all in IEEE f32. -/
def scaled_dims (width height max_dim : Nat) : Nat × Nat :=
  (f32toU32 (f32mul (f32ofNat width)
      (f32div (f32ofNat max_dim) (f32ofNat (max width height)))),
   f32toU32 (f32mul (f32ofNat height)
      (f32div (f32ofNat max_dim) (f32ofNat (max width height)))))

/-- The MIME-to-encoder map of `downscale_image_if_needed`
(main.rs:290-296); `none` is the `_ => return original` arm. -/
def mimeToImageFormat (mime : String) : Option String :=
  if mime == "image/png" then some "png"
  else if mime == "image/jpeg" || mime == "image/jpg" then some "jpeg"
  else if mime == "image/gif" then some "gif"
  else if mime == "image/webp" then some "webp"
  else none

/-- The external image capability (spec §1 treats decode/resize/encode as
collaborators).  `load` decodes bytes to pixel dimensions (`none` = decode
failure); `resizeEncode` resizes the decoded image to the given dimensions
and re-encodes it to the given format (`none` = encoding failure). -/
structure ImageCodec where
  load : List Nat → Option (Nat × Nat)
  resizeEncode : List Nat → Nat → Nat → String → Option (List Nat)

/-- `downscale_image_if_needed` (main.rs:261-304).  Every failure mode
degrades to returning the input bytes unchanged. -/
def downscale_image_if_needed (codec : ImageCodec) (data : List Nat)
    (mime : String) (max_dim : Option Nat) : List Nat :=
  match max_dim with
  | none => data
  | some d =>
    if d = 0 then data
    else
      match codec.load data with
      | none => data
      | some (width, height) =>
        if max width height ≤ d then data
        else
          let dims := scaled_dims width height d
          match mimeToImageFormat mime with
          | none => data
          | some fmt =>
            match codec.resizeEncode data dims.1 dims.2 fmt with
            | none => data
            | some out => out

/-- The stdin byte limit for image ingestion (main.rs:342-345):
`config.and_then(|c| c.max_file_size_mb).map_or(100 * 1024 * 1024,
|mb| mb * 1024 * 1024)`.  The multiplication is `u64` arithmetic, wrapping
modulo `2 ^ 64` for `mb ≥ 2 ^ 44` (release-build semantics); the wrapped
result is always a multiple of `2 ^ 20`, so the later `max_bytes + 1`
(main.rs:347) cannot itself wrap, and on the 64-bit targets the program
runs on, `max_bytes.try_into()` into `usize` (main.rs:350) is exact. -/
def stdin_image_max_bytes (cfg : Option BridgeConfig) : Nat :=
  (((cfg.bind fun c => c.max_file_size_mb).map
      fun mb => mb * 1024 * 1024 % 2 ^ 64).getD
    (100 * 1024 * 1024))

/-- The payload source of input mode: an explicit file path after `-i`, or
standard input. -/
inductive Source where
  | stdinData (b : List Nat)
  | filePath (p : RPath)

/-- The image-write tail of `input_type` (main.rs:359-377): downscale with
the configured maximum dimension, write `image.bin`, and write the sidecar
with the jpg→jpeg-normalized format. -/
def store_image (codec : ImageCodec) (cfg : Option BridgeConfig)
    (mime : String) (imgData : List Nat) (st : CacheState) (now : Nat) :
    CacheState :=
  let processed := downscale_image_if_needed codec imgData mime
    (cfg.bind fun c => c.max_image_dimension)
  let fmt := if mime == "image/jpg" then "image/jpeg" else mime
  { st with image := some ⟨processed, now⟩, imageFormat := some ⟨fmt, now⟩ }

/-- `input_type` (main.rs:307-388).  Result: (exit code, cache state after
the call).  `readFile` gives the byte content of readable regular files
(`none` = unreadable/absent); the file's metadata length is its content
length.  The source loads the config more than once per invocation; the
model passes the one `cfg` value those loads return.  Text from a file is
validated then copied; text from stdin is written unconditionally.  Image
bytes from a file are validated then read; image bytes from stdin are
bounded by `stdin_image_max_bytes` (read through `take(max_bytes + 1)` and
rejected when the buffered length exceeds the limit).  Accepted image
bytes pass through downscaling and are written with the normalized-format
sidecar.  Any other MIME kind exits 1, writing nothing. -/
def input_type (codec : ImageCodec) (cfg : Option BridgeConfig)
    (canon : RPath → Option RPath) (home : Option RPath)
    (readFile : RPath → Option (List Nat))
    (mime : String) (src : Source) (st : CacheState) (now : Nat) :
    Nat × CacheState :=
  if strStartsWith mime "text/plain" then
    match src with
    | .filePath p =>
      match validate_file_access cfg canon home ((readFile p).map List.length) p with
      | .error _ => (1, st)
      | .ok _ =>
        match readFile p with
        | none => (1, st)
        | some data => (0, { st with text := some ⟨data, now⟩ })
    | .stdinData b => (0, { st with text := some ⟨b, now⟩ })
  else if mime ∈ imageMimes then
    match src with
    | .filePath p =>
      match validate_file_access cfg canon home ((readFile p).map List.length) p with
      | .error _ => (1, st)
      | .ok _ =>
        match readFile p with
        | none => (1, st)
        | some imgData => (0, store_image codec cfg mime imgData st now)
    | .stdinData b =>
      let maxBytes := stdin_image_max_bytes cfg
      let imgData := b.take (maxBytes + 1)
      if maxBytes < imgData.length then (1, st)
      else (0, store_image codec cfg mime imgData st now)
  else (1, st)

/-- Modelled from the spec (§4.4(b)): "the canonicalized path must be
prefixed by the canonicalized home directory" — the home directory is
itself canonicalized before the prefix test.  Compared against the source,
which uses the `HOME` value verbatim. -/
def specHomeAccepts (canon : RPath → Option RPath) (home path : RPath) : Bool :=
  (canonOrSelf canon home).isPrefixOf (canonOrSelf canon path)

/-- A canonicalization map under which the configured home directory
`["home", "u"]` is a symlink resolving to `["rh"]`, while every other path
is already canonical. -/
def canonEx : RPath → Option RPath :=
  fun p => if p = ["home", "u"] then some ["rh"] else some p

/-- A config that only turns on the home restriction. -/
def cfgHome : BridgeConfig := { restrict_to_home := some true }

/-- A config whose only setting is a file-size limit of 0 MB. -/
def cfgZeroLimit : BridgeConfig := { max_file_size_mb := some 0 }

/-- A codec that decodes nothing and encodes nothing: adequate wherever the
decode/encode capability is irrelevant. -/
def trivialCodec : ImageCodec :=
  ⟨fun _ => none, fun _ _ _ _ => none⟩

/- ### Theorems -/

/-- C1: the freshness check is exactly "exists ∧ non-empty ∧ elapsed ≤ ttl",
with an inclusive boundary at elapsed = ttl.  The elapsed time since the
last modification is well defined only when the modification time is not
in the future, hence the hypothesis. -/
theorem fresh_iff_nonempty_and_within_ttl (f : Option FileData) (now ttl : Nat)
    (h : ∀ d, f = some d → d.mtime ≤ now) :
    is_file_fresh f now ttl = true ↔
      ∃ d, f = some d ∧ 0 < d.content.length ∧ now - d.mtime ≤ ttl := by
  cases f with
  | none =>
    simp [is_file_fresh]
  | some d =>
    have hd : d.mtime ≤ now := h d rfl
    simp [is_file_fresh, is_file_non_empty, hd]
    tauto

/-- C1 witness: at the inclusive boundary (elapsed = ttl = 5 exactly) a
non-empty file is reported fresh. -/
theorem fresh_iff_nonempty_and_within_ttl_witness :
    is_file_fresh (some ⟨[7], 0⟩) 5 5 = true :=
  (fresh_iff_nonempty_and_within_ttl (some ⟨[7], 0⟩) 5 5
      (by intro d hd; cases hd; decide)).mpr
    ⟨⟨[7], 0⟩, rfl, by decide, by decide⟩

/-- C8: a file whose modification time is strictly in the future is never
fresh (the failed `duration_since` is treated as not fresh), even though
`now - modified_time ≤ ttl` holds for it as a signed quantity. -/
theorem future_mtime_not_fresh (d : FileData) (now ttl : Nat)
    (h : now < d.mtime) :
    is_file_fresh (some d) now ttl = false ∧
      ((now : Int) - (d.mtime : Int) ≤ (ttl : Int)) := by
  constructor
  · simp [is_file_fresh, Nat.not_le.mpr h]
  · have : (now : Int) - (d.mtime : Int) ≤ 0 := by
      omega
    exact this.trans (by positivity)

/-- C8 witness: a non-empty file modified at time 10, observed at time 3,
with TTL 100, is reported stale. -/
theorem future_mtime_not_fresh_witness :
    is_file_fresh (some ⟨[1], 10⟩) 3 100 = false ∧
      ((3 : Int) - ((10 : Nat) : Int) ≤ (100 : Int)) :=
  future_mtime_not_fresh ⟨[1], 10⟩ 3 100 (by decide)

/-- C4: in output mode, a fresh image slot whose sidecar does not match the
requested image MIME (modulo the jpg/jpeg alias) yields exit 1 with the
cache state — payload and sidecar included — unchanged; moreover, across
all of output mode, the image slot (payload or sidecar) is modified only
when the payload is present but stale. -/
theorem image_mismatch_exit1_no_eviction (mime : String) (st : CacheState)
    (now ttl : Nat)
    (hm : mime ∈ imageMimes)
    (hfresh : is_file_fresh st.image now ttl = true)
    (hmis : formatMatches mime st.imageFormat = false) :
    output_type mime st now ttl = (1, none, st) ∧
      (∀ (m : String) (st' : CacheState) (n t : Nat),
        ((output_type m st' n t).2.2.image ≠ st'.image ∨
          (output_type m st' n t).2.2.imageFormat ≠ st'.imageFormat) →
        is_file_fresh st'.image n t = false ∧ st'.image.isSome = true) := by
  constructor
  · have hnt : strStartsWith mime "text/plain" = false := by
      simp only [imageMimes, List.mem_cons, List.not_mem_nil, or_false] at hm
      rcases hm with rfl | rfl | rfl | rfl | rfl <;> decide
    simp [output_type, hnt, hm, hfresh, hmis]
  · intro m st' n t hchange
    by_cases htxt : strStartsWith m "text/plain" = true
    · exfalso
      by_cases hf : is_file_fresh st'.text n t = true
      · simp [output_type, htxt, hf] at hchange
      · by_cases hs : st'.text.isSome = true <;>
          simp [output_type, htxt, hf, hs] at hchange
    · by_cases him : m ∈ imageMimes
      · by_cases hf : is_file_fresh st'.image n t = true
        · exfalso
          by_cases hmm : formatMatches m st'.imageFormat = true <;>
            simp [output_type, htxt, him, hf, hmm] at hchange
        · by_cases hs : st'.image.isSome = true
          · exact ⟨Bool.eq_false_iff.mpr hf, hs⟩
          · exfalso
            simp [output_type, htxt, him, hf, hs] at hchange
      · exfalso
        simp [output_type, htxt, him] at hchange

/-- C4 witness: a fresh image slot storing `image/png`, queried as
`image/jpeg`, exits 1 and nothing is evicted. -/
theorem image_mismatch_exit1_no_eviction_witness :
    output_type "image/jpeg" ⟨some ⟨[9], 0⟩, some ⟨"image/png", 0⟩, none⟩ 0 300 =
      (1, none, ⟨some ⟨[9], 0⟩, some ⟨"image/png", 0⟩, none⟩) :=
  (image_mismatch_exit1_no_eviction "image/jpeg"
      ⟨some ⟨[9], 0⟩, some ⟨"image/png", 0⟩, none⟩ 0 300
      (by decide) (by decide) (by decide)).1

/-- C9: in output mode, a MIME kind that neither starts with `text/plain`
nor is a recognized image kind exits 1 and leaves the whole cache state
unchanged, fresh or stale. -/
theorem unsupported_output_mime_no_change (mime : String) (st : CacheState)
    (now ttl : Nat)
    (ht : strStartsWith mime "text/plain" = false)
    (hi : mime ∉ imageMimes) :
    output_type mime st now ttl = (1, none, st) := by
  simp [output_type, ht, hi]

/-- C9 witness: `application/octet-stream` against a cache whose image and
text slots are both present and stale exits 1 without touching them. -/
theorem unsupported_output_mime_no_change_witness :
    output_type "application/octet-stream"
        ⟨some ⟨[1], 0⟩, some ⟨"image/png", 0⟩, some ⟨[2], 0⟩⟩ 1000 1 =
      (1, none, ⟨some ⟨[1], 0⟩, some ⟨"image/png", 0⟩, some ⟨[2], 0⟩⟩) :=
  unsupported_output_mime_no_change "application/octet-stream"
    ⟨some ⟨[1], 0⟩, some ⟨"image/png", 0⟩, some ⟨[2], 0⟩⟩ 1000 1
    (by decide) (by decide)

/-- No recognized image MIME kind starts with `text/plain`. -/
theorem image_mime_not_text : ∀ m ∈ imageMimes, strStartsWith m "text/plain" = false := by
  decide

/-- An empty byte payload passes unchanged through downscaling whenever the
codec cannot decode it (no image format decodes zero bytes). -/
theorem downscale_empty (codec : ImageCodec) (mime : String)
    (max_dim : Option Nat) (hload : codec.load [] = none) :
    downscale_image_if_needed codec [] mime max_dim = [] := by
  cases max_dim with
  | none => rfl
  | some d =>
    by_cases hd : d = 0 <;> simp [downscale_image_if_needed, hd, hload]

/-- C2 counterexample: with `restrict_to_home = true`, `HOME = home/u` a
symlink canonicalizing to `rh`, and the file `rh/f` already canonical, the
spec's rule (canonical path prefixed by the canonical home) accepts, yet
`validate_file_access` denies — the source compares against the `HOME`
value verbatim, never canonicalizing it. -/
theorem home_restriction_canonical_home_counterexample :
    specHomeAccepts canonEx ["home", "u"] ["rh", "f"] = true ∧
    validate_file_access (some cfgHome) canonEx (some ["home", "u"]) none ["rh", "f"] =
      .error .outsideHome :=
  ⟨rfl, rfl⟩

/-- C2 amended: when `restrict_to_home` is true, `HOME` is set, and the
size and allow-list checks pass, `validate_file_access` accepts a path iff
its canonicalized form is prefixed by the `HOME` value taken verbatim (not
canonicalized); and any validation failure aborts file-sourced ingestion
with exit 1 and no cache write. -/
theorem home_restriction_verbatim_home (c : BridgeConfig)
    (canon : RPath → Option RPath) (home path : RPath) (fileSize : Option Nat)
    (hr : c.restrict_to_home = some true)
    (hs : sizeDenied c fileSize = false)
    (ha : allowedDenied c canon path = false) :
    (validate_file_access (some c) canon (some home) fileSize path = .ok () ↔
      home.isPrefixOf (canonOrSelf canon path) = true) ∧
    (∀ (codec : ImageCodec) (cfg : Option BridgeConfig)
        (canon' : RPath → Option RPath) (home' : Option RPath)
        (readFile : RPath → Option (List Nat)) (mime : String) (p : RPath)
        (st : CacheState) (now : Nat),
      validate_file_access cfg canon' home' ((readFile p).map List.length) p ≠
          Except.ok () →
      input_type codec cfg canon' home' readFile mime (.filePath p) st now = (1, st)) := by
  constructor
  · have hh : homeDenied c canon (some home) path =
        !(home.isPrefixOf (canonOrSelf canon path)) := by
      simp [homeDenied, hr]
    cases hp : home.isPrefixOf (canonOrSelf canon path) <;>
      simp [validate_file_access, hs, ha, hh, hp]
  · intro codec cfg canon' home' readFile mime p st now hv
    cases hval : validate_file_access cfg canon' home' ((readFile p).map List.length) p with
    | ok u =>
      cases u
      exact absurd hval hv
    | error d =>
      by_cases htxt : strStartsWith mime "text/plain" = true
      · simp [input_type, htxt, hval]
      · by_cases him : mime ∈ imageMimes <;>
          simp [input_type, htxt, him, hval]

/-- C2 amended witness: `HOME = h`, path `h/f` already canonical, only the
home restriction configured: the path is accepted. -/
theorem home_restriction_verbatim_home_witness :
    validate_file_access (some cfgHome) (fun p => some p) (some ["h"]) none ["h", "f"] =
      .ok () :=
  (home_restriction_verbatim_home cfgHome (fun p => some p) ["h"] ["h", "f"] none
      rfl rfl rfl).1.mpr (by decide)

/-- C3 counterexample: with `max_file_size_mb = 0` a one-byte stdin image
payload is rejected with exit 1 — the zero limit is enforced as a
zero-byte cap on the stdin path, not treated as "disabled". -/
theorem zero_size_limit_stdin_counterexample :
    input_type trivialCodec (some cfgZeroLimit) (fun _ => none) none (fun _ => none)
      "image/png" (.stdinData [1]) ⟨none, none, none⟩ 0 =
      (1, ⟨none, none, none⟩) :=
  rfl

/-- C3 amended: a `max_file_size_mb` of 0 or an absent value disables the
size check for file-sourced payloads (`validate_file_access` never reports
the size denial); for stdin image ingestion the limit is always active:
the byte budget is `mb * 2^20` computed in wrapping `u64` arithmetic
(`mb * 2^20 mod 2^64`, so 0 — and any `mb ≥ 2^44` whose product wraps to
0 — rejects every non-empty payload) when a value `mb` is configured, and
`100 * 2^20` when the value or the whole config is absent; the invocation
exits 1 exactly when the stdin payload exceeds that budget. -/
theorem size_limit_semantics :
    (∀ (c : BridgeConfig) (canon : RPath → Option RPath) (home : Option RPath)
        (fileSize : Option Nat) (path : RPath),
      c.max_file_size_mb = none ∨ c.max_file_size_mb = some 0 →
      validate_file_access (some c) canon home fileSize path ≠
        .error .fileTooLarge) ∧
    stdin_image_max_bytes none = 100 * 1024 * 1024 ∧
    (∀ c : BridgeConfig, c.max_file_size_mb = none →
      stdin_image_max_bytes (some c) = 100 * 1024 * 1024) ∧
    (∀ (c : BridgeConfig) (mb : Nat), c.max_file_size_mb = some mb →
      stdin_image_max_bytes (some c) = mb * 1024 * 1024 % 2 ^ 64) ∧
    (∀ (codec : ImageCodec) (cfg : Option BridgeConfig)
        (canon : RPath → Option RPath) (home : Option RPath)
        (readFile : RPath → Option (List Nat)) (mime : String) (b : List Nat)
        (st : CacheState) (now : Nat), mime ∈ imageMimes →
      ((input_type codec cfg canon home readFile mime (.stdinData b) st now).1 = 1 ↔
        stdin_image_max_bytes cfg < b.length)) := by
  refine ⟨?_, rfl, ?_, ?_, ?_⟩
  · intro c canon home fileSize path hmb
    have hsz : sizeDenied c fileSize = false := by
      rcases hmb with hmb | hmb <;> cases fileSize <;> simp [sizeDenied, hmb]
    intro hcontra
    by_cases hh : homeDenied c canon home path = true <;>
      by_cases hal : allowedDenied c canon path = true <;>
        simp [validate_file_access, hsz, hh, hal] at hcontra
  · intro c hc
    simp [stdin_image_max_bytes, hc]
  · intro c mb hc
    simp [stdin_image_max_bytes, hc]
  · intro codec cfg canon home readFile mime b st now him
    have hnt : strStartsWith mime "text/plain" = false :=
      image_mime_not_text mime him
    by_cases hover : stdin_image_max_bytes cfg < (b.take (stdin_image_max_bytes cfg + 1)).length
    · have hlen : stdin_image_max_bytes cfg < b.length := by
        have := List.length_take (stdin_image_max_bytes cfg + 1) b
        omega
      simp [input_type, hnt, him, hover, hlen]
    · have hlen : ¬ stdin_image_max_bytes cfg < b.length := by
        have := List.length_take (stdin_image_max_bytes cfg + 1) b
        omega
      simp [input_type, hnt, him, hover, hlen]

/-- C3 amended witness: size check skipped for a 5 MB file under a 0 MB
limit; stdin budget for a configured 0 is 0 bytes; a one-byte stdin image
payload then exits 1; and a configured `2 ^ 44` wraps the `u64` budget to
0, so a one-byte payload is likewise rejected. -/
theorem size_limit_semantics_witness :
    validate_file_access (some cfgZeroLimit) (fun p => some p) none
        (some (5 * 1024 * 1024)) ["x"] ≠ .error .fileTooLarge ∧
    stdin_image_max_bytes (some cfgZeroLimit) = 0 * 1024 * 1024 % 2 ^ 64 ∧
    ((input_type trivialCodec (some cfgZeroLimit) (fun p => some p) none
        (fun _ => none) "image/png" (.stdinData [1]) ⟨none, none, none⟩ 0).1 = 1 ↔
      stdin_image_max_bytes (some cfgZeroLimit) < [1].length) ∧
    (input_type trivialCodec (some { max_file_size_mb := some (2 ^ 44) })
        (fun p => some p) none (fun _ => none) "image/png" (.stdinData [1])
        ⟨none, none, none⟩ 0).1 = 1 :=
  ⟨size_limit_semantics.1 cfgZeroLimit (fun p => some p) none
      (some (5 * 1024 * 1024)) ["x"] (Or.inr rfl),
   size_limit_semantics.2.2.2.1 cfgZeroLimit 0 rfl,
   size_limit_semantics.2.2.2.2 trivialCodec (some cfgZeroLimit) (fun p => some p)
     none (fun _ => none) "image/png" [1] ⟨none, none, none⟩ 0 (by decide),
   (size_limit_semantics.2.2.2.2 trivialCodec
     (some { max_file_size_mb := some (2 ^ 44) }) (fun p => some p)
     none (fun _ => none) "image/png" [1] ⟨none, none, none⟩ 0 (by decide)).mpr
     (by decide)⟩

/-- C6: storing any byte sequence through input mode with a `text/plain*`
MIME writes it to the text slot with exit 0, and reading it back through
output mode with any `text/plain*` MIME while the slot is fresh streams
exactly those bytes with exit 0, leaving the state unchanged. -/
theorem text_roundtrip (codec : ImageCodec) (cfg : Option BridgeConfig)
    (canon : RPath → Option RPath) (home : Option RPath)
    (readFile : RPath → Option (List Nat)) (mimeIn mimeOut : String)
    (b : List Nat) (st : CacheState) (now nowR ttl : Nat)
    (hin : strStartsWith mimeIn "text/plain" = true)
    (hout : strStartsWith mimeOut "text/plain" = true)
    (hfresh : is_file_fresh (some ⟨b, now⟩) nowR ttl = true) :
    input_type codec cfg canon home readFile mimeIn (.stdinData b) st now =
      (0, { st with text := some ⟨b, now⟩ }) ∧
    output_type mimeOut { st with text := some ⟨b, now⟩ } nowR ttl =
      (0, some b, { st with text := some ⟨b, now⟩ }) := by
  refine ⟨by simp [input_type, hin], ?_⟩
  simp [output_type, hout, hfresh]

/-- C6 witness: the bytes `[65, 0, 255]` survive the round trip
byte-for-byte within a 300-tick TTL. -/
theorem text_roundtrip_witness :
    input_type trivialCodec none (fun _ => none) none (fun _ => none)
        "text/plain" (.stdinData [65, 0, 255]) ⟨none, none, none⟩ 10 =
      (0, ⟨none, none, some ⟨[65, 0, 255], 10⟩⟩) ∧
    output_type "text/plain;charset=utf-8" ⟨none, none, some ⟨[65, 0, 255], 10⟩⟩
        12 300 =
      (0, some [65, 0, 255], ⟨none, none, some ⟨[65, 0, 255], 10⟩⟩) :=
  text_roundtrip trivialCodec none (fun _ => none) none (fun _ => none)
    "text/plain" "text/plain;charset=utf-8" [65, 0, 255] ⟨none, none, none⟩
    10 12 300 (by decide) (by decide) (by decide)

/-- C10: an empty stdin image payload is accepted with exit 0, writing an
empty payload file and its format sidecar; the resulting slot is never
listed by `targets` (which also evicts it) and never served by output
mode, because freshness requires a non-empty file. -/
theorem empty_image_store_never_served (codec : ImageCodec)
    (cfg : Option BridgeConfig) (canon : RPath → Option RPath)
    (home : Option RPath) (readFile : RPath → Option (List Nat))
    (mime : String) (st : CacheState) (now : Nat)
    (hm : mime ∈ imageMimes)
    (hload : codec.load [] = none) :
    input_type codec cfg canon home readFile mime (.stdinData []) st now =
      (0, { st with
              image := some ⟨[], now⟩,
              imageFormat :=
                some ⟨(if mime == "image/jpg" then "image/jpeg" else mime), now⟩ }) ∧
    (∀ nowR ttl,
      (print_targets
          (input_type codec cfg canon home readFile mime (.stdinData []) st now).2
          nowR ttl).1 =
        if is_file_fresh st.text nowR ttl then ["text/plain;charset=utf-8", "STRING"]
        else []) ∧
    (∀ m ∈ imageMimes, ∀ nowR ttl,
      (output_type m
          (input_type codec cfg canon home readFile mime (.stdinData []) st now).2
          nowR ttl).1 = 1 ∧
      (output_type m
          (input_type codec cfg canon home readFile mime (.stdinData []) st now).2
          nowR ttl).2.1 = none) := by
  have hnt : strStartsWith mime "text/plain" = false :=
    image_mime_not_text mime hm
  have hstore :
      input_type codec cfg canon home readFile mime (.stdinData []) st now =
        (0, { st with
                image := some ⟨[], now⟩,
                imageFormat :=
                  some ⟨(if mime == "image/jpg" then "image/jpeg" else mime), now⟩ }) := by
    simp [input_type, hnt, hm, store_image,
      downscale_empty codec mime _ hload]
  refine ⟨hstore, ?_, ?_⟩
  · intro nowR ttl
    rw [hstore]
    have himg : is_file_fresh (some ⟨([] : List Nat), now⟩) nowR ttl = false := by
      simp [is_file_fresh, is_file_non_empty]
    cases hft : is_file_fresh st.text nowR ttl <;>
      cases hs : st.text.isSome <;>
        simp [print_targets, himg, hft, hs]
  · intro m hmm nowR ttl
    rw [hstore]
    have hnt' : strStartsWith m "text/plain" = false :=
      image_mime_not_text m hmm
    constructor <;>
      simp [output_type, hnt', hmm, is_file_fresh, is_file_non_empty]

/-- C10 witness: an empty `image/png` stdin store on an empty cache exits 0
and writes the two files; `targets` then lists nothing and an `image/png`
query exits 1 with no payload. -/
theorem empty_image_store_never_served_witness :
    input_type trivialCodec none (fun _ => none) none (fun _ => none)
        "image/png" (.stdinData []) ⟨none, none, none⟩ 0 =
      (0, ⟨some ⟨[], 0⟩, some ⟨"image/png", 0⟩, none⟩) ∧
    (print_targets
        (input_type trivialCodec none (fun _ => none) none (fun _ => none)
          "image/png" (.stdinData []) ⟨none, none, none⟩ 0).2 0 300).1 = [] ∧
    (output_type "image/png"
        (input_type trivialCodec none (fun _ => none) none (fun _ => none)
          "image/png" (.stdinData []) ⟨none, none, none⟩ 0).2 0 300).1 = 1 := by
  have h := empty_image_store_never_served trivialCodec none (fun _ => none) none
    (fun _ => none) "image/png" ⟨none, none, none⟩ 0 (by decide) rfl
  exact ⟨h.1, h.2.1 0 300, (h.2.2 "image/png" (by decide) 0 300).1⟩

/-- C5: storing an image declared `image/jpg` then requesting `image/jpeg`
succeeds and streams the stored bytes, and vice versa; after either store
the sidecar records exactly `image/jpeg`.  The slot must be read while
fresh, which requires the stored (possibly downscaled) payload to be
non-empty. -/
theorem jpeg_alias_roundtrip (codec : ImageCodec) (cfg : Option BridgeConfig)
    (canon : RPath → Option RPath) (home : Option RPath)
    (readFile : RPath → Option (List Nat)) (b : List Nat)
    (st : CacheState) (now nowR ttl : Nat)
    (hlen : b.length ≤ stdin_image_max_bytes cfg)
    (hnn : now ≤ nowR) (httl : nowR - now ≤ ttl)
    (hne : downscale_image_if_needed codec b "image/jpg"
        (cfg.bind fun c => c.max_image_dimension) ≠ [])
    (hne' : downscale_image_if_needed codec b "image/jpeg"
        (cfg.bind fun c => c.max_image_dimension) ≠ []) :
    (input_type codec cfg canon home readFile "image/jpg" (.stdinData b) st now).1 = 0 ∧
    (input_type codec cfg canon home readFile "image/jpg" (.stdinData b) st now).2.imageFormat =
      some ⟨"image/jpeg", now⟩ ∧
    output_type "image/jpeg"
        (input_type codec cfg canon home readFile "image/jpg" (.stdinData b) st now).2 nowR ttl =
      (0,
        ((input_type codec cfg canon home readFile "image/jpg" (.stdinData b) st now).2.image.map
          (·.content)),
        (input_type codec cfg canon home readFile "image/jpg" (.stdinData b) st now).2) ∧
    (input_type codec cfg canon home readFile "image/jpeg" (.stdinData b) st now).1 = 0 ∧
    (input_type codec cfg canon home readFile "image/jpeg" (.stdinData b) st now).2.imageFormat =
      some ⟨"image/jpeg", now⟩ ∧
    output_type "image/jpg"
        (input_type codec cfg canon home readFile "image/jpeg" (.stdinData b) st now).2 nowR ttl =
      (0,
        ((input_type codec cfg canon home readFile "image/jpeg" (.stdinData b) st now).2.image.map
          (·.content)),
        (input_type codec cfg canon home readFile "image/jpeg" (.stdinData b) st now).2) := by
  have hb : b.take (stdin_image_max_bytes cfg + 1) = b :=
    List.take_of_length_le (by omega)
  have hnot : ¬ stdin_image_max_bytes cfg <
      (b.take (stdin_image_max_bytes cfg + 1)).length := by
    rw [hb]; omega
  have ht1 : strStartsWith "image/jpg" "text/plain" = false := by decide
  have ht2 : strStartsWith "image/jpeg" "text/plain" = false := by decide
  have hm1 : "image/jpg" ∈ imageMimes := by decide
  have hm2 : "image/jpeg" ∈ imageMimes := by decide
  have hin1 : input_type codec cfg canon home readFile "image/jpg" (.stdinData b) st now =
      (0, { st with
              image := some ⟨downscale_image_if_needed codec b "image/jpg"
                (cfg.bind fun c => c.max_image_dimension), now⟩,
              imageFormat := some ⟨"image/jpeg", now⟩ }) := by
    simp [input_type, ht1, hm1, hnot, hb, store_image, hlen]
  have hin2 : input_type codec cfg canon home readFile "image/jpeg" (.stdinData b) st now =
      (0, { st with
              image := some ⟨downscale_image_if_needed codec b "image/jpeg"
                (cfg.bind fun c => c.max_image_dimension), now⟩,
              imageFormat := some ⟨"image/jpeg", now⟩ }) := by
    simp [input_type, ht2, hm2, hnot, hb, store_image, hlen]
  have hf1 : is_file_fresh (some ⟨downscale_image_if_needed codec b "image/jpg"
      (cfg.bind fun c => c.max_image_dimension), now⟩) nowR ttl = true := by
    simp [is_file_fresh, is_file_non_empty, hnn, httl, List.length_pos.mpr hne]
  have hf2 : is_file_fresh (some ⟨downscale_image_if_needed codec b "image/jpeg"
      (cfg.bind fun c => c.max_image_dimension), now⟩) nowR ttl = true := by
    simp [is_file_fresh, is_file_non_empty, hnn, httl, List.length_pos.mpr hne']
  have hfm1 : formatMatches "image/jpeg" (some ⟨"image/jpeg", now⟩) = true := rfl
  have hfm2 : formatMatches "image/jpg" (some ⟨"image/jpeg", now⟩) = true := rfl
  rw [hin1, hin2]
  refine ⟨rfl, rfl, ?_, rfl, rfl, ?_⟩
  · simp [output_type, ht2, hm2, hf1, hfm1]
  · simp [output_type, ht1, hm1, hf2, hfm2]

/-- C5 witness: a one-byte payload stored as `image/jpg` is served for an
`image/jpeg` request (and vice versa) one tick later, and both stores
record `image/jpeg` in the sidecar. -/
theorem jpeg_alias_roundtrip_witness :
    (input_type trivialCodec none (fun _ => none) none (fun _ => none)
      "image/jpg" (.stdinData [1]) ⟨none, none, none⟩ 0).1 = 0 ∧
    (input_type trivialCodec none (fun _ => none) none (fun _ => none)
      "image/jpg" (.stdinData [1]) ⟨none, none, none⟩ 0).2.imageFormat =
      some ⟨"image/jpeg", 0⟩ ∧
    output_type "image/jpeg"
        (input_type trivialCodec none (fun _ => none) none (fun _ => none)
          "image/jpg" (.stdinData [1]) ⟨none, none, none⟩ 0).2 1 300 =
      (0,
        ((input_type trivialCodec none (fun _ => none) none (fun _ => none)
          "image/jpg" (.stdinData [1]) ⟨none, none, none⟩ 0).2.image.map
          (·.content)),
        (input_type trivialCodec none (fun _ => none) none (fun _ => none)
          "image/jpg" (.stdinData [1]) ⟨none, none, none⟩ 0).2) ∧
    (input_type trivialCodec none (fun _ => none) none (fun _ => none)
      "image/jpeg" (.stdinData [1]) ⟨none, none, none⟩ 0).1 = 0 ∧
    (input_type trivialCodec none (fun _ => none) none (fun _ => none)
      "image/jpeg" (.stdinData [1]) ⟨none, none, none⟩ 0).2.imageFormat =
      some ⟨"image/jpeg", 0⟩ ∧
    output_type "image/jpg"
        (input_type trivialCodec none (fun _ => none) none (fun _ => none)
          "image/jpeg" (.stdinData [1]) ⟨none, none, none⟩ 0).2 1 300 =
      (0,
        ((input_type trivialCodec none (fun _ => none) none (fun _ => none)
          "image/jpeg" (.stdinData [1]) ⟨none, none, none⟩ 0).2.image.map
          (·.content)),
        (input_type trivialCodec none (fun _ => none) none (fun _ => none)
          "image/jpeg" (.stdinData [1]) ⟨none, none, none⟩ 0).2) :=
  jpeg_alias_roundtrip trivialCodec none (fun _ => none) none (fun _ => none)
    [1] ⟨none, none, none⟩ 0 1 300 (by decide) (by decide) (by decide)
    (by decide) (by decide)

/- ### Correctness of the f32 model -/

/-- `log2fuel` brackets its argument between consecutive powers of two,
given enough fuel. -/
theorem log2fuel_bracket (fuel : Nat) : ∀ n, 1 ≤ n → n ≤ fuel →
    2 ^ log2fuel fuel n ≤ n ∧ n < 2 ^ (log2fuel fuel n + 1) := by
  induction fuel with
  | zero => intro n h1 h2; omega
  | succ fuel ih =>
    intro n h1 h2
    by_cases hn : 2 ≤ n
    · have ihh := ih (n / 2) (by omega) (by omega)
      simp only [log2fuel, if_pos hn]
      rw [pow_succ, pow_succ]
      omega
    · interval_cases n
      simp [log2fuel]

/-- `upFromBelowFuel` reaches `b`, given enough fuel. -/
theorem upFromBelowFuel_le (fuel : Nat) : ∀ a b, 0 < a → b ≤ a * 2 ^ fuel →
    b ≤ a * 2 ^ upFromBelowFuel fuel a b := by
  induction fuel with
  | zero =>
    intro a b ha hb
    simpa [upFromBelowFuel] using hb
  | succ fuel ih =>
    intro a b ha hb
    by_cases hab : b ≤ a
    · simp only [upFromBelowFuel, if_pos hab]
      calc b ≤ a := hab
        _ ≤ a * 2 ^ 0 := by omega
    · have hb2 : b ≤ 2 * a * 2 ^ fuel := by
        calc b ≤ a * 2 ^ (fuel + 1) := hb
          _ = 2 * a * 2 ^ fuel := by ring
      have ihh := ih (2 * a) b (by omega) hb2
      simp only [upFromBelowFuel, if_neg hab]
      calc b ≤ 2 * a * 2 ^ upFromBelowFuel fuel (2 * a) b := ihh
        _ = a * 2 ^ (upFromBelowFuel fuel (2 * a) b + 1) := by ring

/-- `upFromBelowFuel` returns the least exponent: one step fewer does not
reach `b`. -/
theorem upFromBelowFuel_min (fuel : Nat) : ∀ a b, 0 < a → a < b →
    a * 2 ^ (upFromBelowFuel fuel a b - 1) < b := by
  induction fuel with
  | zero =>
    intro a b ha hab
    simpa [upFromBelowFuel] using hab
  | succ fuel ih =>
    intro a b ha hab
    have hnab : ¬ b ≤ a := by omega
    simp only [upFromBelowFuel, if_neg hnab]
    by_cases h2 : 2 * a < b
    · have ihh := ih (2 * a) b (by omega) h2
      rcases Nat.eq_zero_or_pos (upFromBelowFuel fuel (2 * a) b) with hz | hpos
      · rw [hz]
        simp only [Nat.add_sub_cancel, pow_zero, mul_one]
        omega
      · have : upFromBelowFuel fuel (2 * a) b + 1 - 1 =
            (upFromBelowFuel fuel (2 * a) b - 1) + 1 := by omega
        rw [this, pow_succ]
        calc a * (2 ^ (upFromBelowFuel fuel (2 * a) b - 1) * 2)
            = 2 * a * 2 ^ (upFromBelowFuel fuel (2 * a) b - 1) := by ring
          _ < b := ihh
    · have hz : upFromBelowFuel fuel (2 * a) b = 0 := by
        cases fuel with
        | zero => rfl
        | succ fuel => simp [upFromBelowFuel]; omega
      rw [hz]
      simpa using hab

/-- The rounding `rne num den` is within half of `num / den`, stated over
the integers: `|den * rne num den - num| ≤ den / 2`. -/
theorem rne_close (num den : Nat) (hden : 0 < den) :
    2 * (den * rne num den) ≤ 2 * num + den ∧
    2 * num ≤ 2 * (den * rne num den) + den := by
  have hmod := Nat.div_add_mod num den
  have hlt : num % den < den := Nat.mod_lt _ hden
  have hexp : den * (num / den + 1) = den * (num / den) + den := by ring
  unfold rne
  split_ifs <;> omega

/-- Rational form of `rne_close`. -/
theorem rne_ratErr (num den : Nat) (hden : 0 < den) :
    |(rne num den : ℚ) - (num : ℚ) / den| ≤ 1 / 2 := by
  have hq : (0 : ℚ) < den := by exact_mod_cast hden
  obtain ⟨h1, h2⟩ := rne_close num den hden
  have h1q : 2 * ((den : ℚ) * rne num den) ≤ 2 * num + den := by exact_mod_cast h1
  have h2q : 2 * (num : ℚ) ≤ 2 * (den * rne num den) + den := by exact_mod_cast h2
  rw [abs_sub_le_iff]
  constructor
  · have hrw : (rne num den : ℚ) - (num : ℚ) / den =
        ((rne num den : ℚ) * den - num) / den := by
      field_simp
    rw [hrw, div_le_iff₀ hq]
    linarith
  · have hrw : (num : ℚ) / den - (rne num den : ℚ) =
        ((num : ℚ) - (rne num den : ℚ) * den) / den := by
      field_simp
      ring
    rw [hrw, div_le_iff₀ hq]
    linarith

/-- Rounding an exact integer quotient is the identity. -/
theorem rne_self (n : Nat) : rne n 1 = n := by
  simp [rne, Nat.mod_one, Nat.div_one]

/-- The value of a dyadic literal. -/
theorem toQ_mk (m k : Nat) : Dyadic.toQ ⟨m, k⟩ = (m : ℚ) / 2 ^ k := rfl

/-- A dyadic value is positive iff its mantissa is. -/
theorem toQ_pos (d : Dyadic) : 0 < d.toQ ↔ 0 < d.m := by
  have h2 : (0 : ℚ) < 2 ^ d.k := by positivity
  constructor
  · intro h
    by_contra hm
    have : d.m = 0 := by omega
    simp [Dyadic.toQ, this] at h
  · intro h
    have : (0 : ℚ) < (d.m : ℚ) := by exact_mod_cast h
    exact div_pos this h2

/-- Dyadic values are non-negative. -/
theorem toQ_nonneg (d : Dyadic) : 0 ≤ d.toQ := by
  have h2 : (0 : ℚ) < 2 ^ d.k := by positivity
  exact div_nonneg (by positivity) (le_of_lt h2)

/-- Truncation of a dyadic to an unsigned integer is the rational floor. -/
theorem f32toU32_eq_floor (d : Dyadic) : f32toU32 d = ⌊d.toQ⌋₊ := by
  have := Nat.floor_div_eq_div (α := ℚ) d.m (2 ^ d.k)
  rw [f32toU32, Dyadic.toQ]
  rw [← this]
  norm_num

/-- Scaled rounding error: if the grid cell is `g > 0` and the exact value
is `(N / D) * g`, the rounded value `rne N D * g` is within `g / 2`. -/
theorem rne_scaled_err (N D : Nat) (g target : ℚ) (hD : 0 < D) (hg : 0 < g)
    (hexact : (N : ℚ) / D * g = target) :
    |(rne N D : ℚ) * g - target| ≤ g / 2 := by
  have h := rne_ratErr N D hD
  have h1 : (rne N D : ℚ) * g - target = ((rne N D : ℚ) - (N : ℚ) / D) * g := by
    rw [← hexact]; ring
  rw [h1, abs_mul, abs_of_pos hg]
  calc |(rne N D : ℚ) - (N : ℚ) / D| * g ≤ (1 / 2) * g :=
        mul_le_mul_of_nonneg_right h (le_of_lt hg)
    _ = g / 2 := by ring

/-- `roundRat32` relative error: the rounded value is within a relative
`2 ^ (-24)` of the exact fraction (half an ulp of a 24-bit significand). -/
theorem roundRat32_err (num den : Nat) (hnum : 0 < num) (hden : 0 < den) :
    |(roundRat32 num den).toQ - (num : ℚ) / den| ≤ ((num : ℚ) / den) / 2 ^ 24 := by
  have hq : (0 : ℚ) < den := by exact_mod_cast hden
  have hn : (0 : ℚ) < num := by exact_mod_cast hnum
  have hqq : (0 : ℚ) < (num : ℚ) / den := div_pos hn hq
  unfold roundRat32
  have hne : ¬ (num = 0 ∨ den = 0) := by omega
  rw [if_neg hne]
  by_cases hdn : den ≤ num
  · rw [if_pos hdn]
    obtain ⟨hlow, hhigh⟩ := log2fuel_bracket num (num / den)
      ((Nat.one_le_div_iff hden).mpr hdn) (Nat.div_le_self num den)
    have hlowQ : (2 : ℚ) ^ log2fuel num (num / den) ≤ (num : ℚ) / den := by
      calc (2 : ℚ) ^ log2fuel num (num / den)
          = ((2 ^ log2fuel num (num / den) : ℕ) : ℚ) := by push_cast; ring
        _ ≤ ((num / den : ℕ) : ℚ) := by exact_mod_cast hlow
        _ ≤ (num : ℚ) / den := Nat.cast_div_le
    set e := log2fuel num (num / den) with he
    by_cases he23 : e ≤ 23
    · rw [if_pos he23, toQ_mk]
      have hg : (0 : ℚ) < 1 / 2 ^ (23 - e) := by positivity
      have hexact : ((num * 2 ^ (23 - e) : ℕ) : ℚ) / den * (1 / 2 ^ (23 - e)) =
          (num : ℚ) / den := by
        push_cast
        have h2 : ((2 : ℚ) ^ (23 - e)) ≠ 0 := by positivity
        field_simp
        ring
      have herr := rne_scaled_err (num * 2 ^ (23 - e)) den (1 / 2 ^ (23 - e))
        ((num : ℚ) / den) hden hg hexact
      have hform : (rne (num * 2 ^ (23 - e)) den : ℚ) * (1 / 2 ^ (23 - e)) =
          (rne (num * 2 ^ (23 - e)) den : ℚ) / 2 ^ (23 - e) := by ring
      rw [hform] at herr
      refine herr.trans ?_
      have hsplit : (2 : ℚ) ^ (23 - e) * 2 ^ e = 2 ^ 23 := by
        rw [← pow_add, Nat.sub_add_cancel he23]
      have hkey : (1 / (2 : ℚ) ^ (23 - e)) / 2 = (2 : ℚ) ^ e / 2 ^ 24 := by
        have h24 : ((2 : ℚ)) ^ 24 = 2 ^ (23 - e) * 2 ^ e * 2 := by
          rw [hsplit]; norm_num
        rw [h24, div_div, div_eq_div_iff (by positivity) (by positivity)]
        ring
      rw [hkey]
      gcongr
    · rw [if_neg he23, toQ_mk]
      have hD : 0 < den * 2 ^ (e - 23) := by positivity
      have hg : (0 : ℚ) < (2 : ℚ) ^ (e - 23) := by positivity
      have hexact : ((num : ℕ) : ℚ) / (den * 2 ^ (e - 23) : ℕ) * (2 : ℚ) ^ (e - 23) =
          (num : ℚ) / den := by
        push_cast
        have h2 : ((2 : ℚ) ^ (e - 23)) ≠ 0 := by positivity
        field_simp
        ring
      have herr := rne_scaled_err num (den * 2 ^ (e - 23)) ((2 : ℚ) ^ (e - 23))
        ((num : ℚ) / den) hD hg hexact
      have hform : ((rne num (den * 2 ^ (e - 23)) * 2 ^ (e - 23) : ℕ) : ℚ) / 2 ^ 0 =
          (rne num (den * 2 ^ (e - 23)) : ℚ) * (2 : ℚ) ^ (e - 23) := by
        push_cast
        ring
      rw [hform]
      refine herr.trans ?_
      have hsplit : (2 : ℚ) ^ (e - 23) * 2 ^ 23 = 2 ^ e := by
        rw [← pow_add, Nat.sub_add_cancel (by omega)]
      have hkey : (2 : ℚ) ^ (e - 23) / 2 = (2 : ℚ) ^ e / 2 ^ 24 := by
        have h24 : ((2 : ℚ)) ^ 24 = 2 ^ 23 * 2 := by norm_num
        rw [div_eq_div_iff (by positivity) (by positivity), ← hsplit, h24]
        ring
      rw [hkey]
      gcongr
  · rw [if_neg hdn]
    have hnd : num < den := by omega
    have hfuel : den ≤ num * 2 ^ den := by
      calc den ≤ 2 ^ den := le_of_lt (Nat.lt_two_pow den)
        _ ≤ num * 2 ^ den := Nat.le_mul_of_pos_left _ hnum
    have hreach := upFromBelowFuel_le den num den hnum hfuel
    set c := upFromBelowFuel den num den with hc
    rw [toQ_mk]
    have hg : (0 : ℚ) < 1 / 2 ^ (23 + c) := by positivity
    have hexact : ((num * 2 ^ (23 + c) : ℕ) : ℚ) / den * (1 / 2 ^ (23 + c)) =
        (num : ℚ) / den := by
      push_cast
      have h2 : ((2 : ℚ) ^ (23 + c)) ≠ 0 := by positivity
      field_simp
      ring
    have herr := rne_scaled_err (num * 2 ^ (23 + c)) den (1 / 2 ^ (23 + c))
      ((num : ℚ) / den) hden hg hexact
    have hform : (rne (num * 2 ^ (23 + c)) den : ℚ) * (1 / 2 ^ (23 + c)) =
        (rne (num * 2 ^ (23 + c)) den : ℚ) / 2 ^ (23 + c) := by ring
    rw [hform] at herr
    refine herr.trans ?_
    have hlowQ : 1 / (2 : ℚ) ^ c ≤ (num : ℚ) / den := by
      rw [div_le_div_iff₀ (by positivity) hq]
      calc (1 : ℚ) * den = den := by ring
        _ ≤ ((num * 2 ^ c : ℕ) : ℚ) := by exact_mod_cast hreach
        _ = (num : ℚ) * 2 ^ c := by push_cast; ring
    have hkey : (1 / (2 : ℚ) ^ (23 + c)) / 2 = (1 / (2 : ℚ) ^ c) / 2 ^ 24 := by
      have hsplit : ((2 : ℚ) ^ (23 + c)) = 2 ^ 23 * 2 ^ c := pow_add 2 23 c
      rw [div_div, div_div, div_eq_div_iff (by positivity) (by positivity), hsplit]
      have h24 : ((2 : ℚ)) ^ 24 = 2 ^ 23 * 2 := by norm_num
      rw [h24]
      ring
    rw [hkey]
    gcongr

/-- `n as f32` is exact below `2 ^ 24`. -/
theorem f32ofNat_exact (n : Nat) (h0 : 0 < n) (hlt : n < 2 ^ 24) :
    (f32ofNat n).toQ = (n : ℚ) := by
  unfold f32ofNat roundRat32
  have hne : ¬ (n = 0 ∨ (1 : Nat) = 0) := by omega
  rw [if_neg hne, if_pos (by omega : 1 ≤ n)]
  obtain ⟨hlow, hhigh⟩ := log2fuel_bracket n (n / 1) (by omega) (by omega)
  set e := log2fuel n (n / 1) with he
  have he23 : e ≤ 23 := by
    by_contra hgt
    have h24 : (2 : ℕ) ^ 24 ≤ 2 ^ e := Nat.pow_le_pow_right (by omega) (by omega)
    rw [Nat.div_one] at hlow
    omega
  rw [if_pos he23, toQ_mk, rne_self]
  push_cast
  rw [mul_div_assoc, div_self (by positivity), mul_one]

/-- f32 division error, in terms of operand values. -/
theorem f32div_err (a b : Dyadic) (ha : 0 < a.m) (hb : 0 < b.m) :
    |(f32div a b).toQ - a.toQ / b.toQ| ≤ (a.toQ / b.toQ) / 2 ^ 24 := by
  have h := roundRat32_err (a.m * 2 ^ b.k) (b.m * 2 ^ a.k)
    (by positivity) (by positivity)
  have hquot : ((a.m * 2 ^ b.k : ℕ) : ℚ) / ((b.m * 2 ^ a.k : ℕ) : ℚ) =
      a.toQ / b.toQ := by
    rw [Dyadic.toQ, Dyadic.toQ]
    have hbm : ((b.m : ℚ)) ≠ 0 := by positivity
    push_cast
    field_simp
    ring
  rw [f32div]
  rw [← hquot]
  exact h

/-- f32 multiplication error, in terms of operand values. -/
theorem f32mul_err (a b : Dyadic) (ha : 0 < a.m) (hb : 0 < b.m) :
    |(f32mul a b).toQ - a.toQ * b.toQ| ≤ (a.toQ * b.toQ) / 2 ^ 24 := by
  have h := roundRat32_err (a.m * b.m) (2 ^ (a.k + b.k))
    (by positivity) (by positivity)
  have hquot : ((a.m * b.m : ℕ) : ℚ) / ((2 ^ (a.k + b.k) : ℕ) : ℚ) =
      a.toQ * b.toQ := by
    rw [Dyadic.toQ, Dyadic.toQ]
    push_cast
    rw [pow_add]
    field_simp
  rw [f32mul]
  rw [← hquot]
  exact h

/-- The value of one scaled dimension: `A as f32` times the f32 quotient
`m / W` is strictly within one of the exact `A * m / W`, for dimensions in
the exactly representable range. -/
theorem f32_scaled_close (A m W : Nat) (hA : 0 < A) (hAb : A ≤ 2 ^ 20)
    (hm : 0 < m) (hmW : m < W) (hWb : W ≤ 2 ^ 20) :
    |(f32mul (f32ofNat A) (f32div (f32ofNat m) (f32ofNat W))).toQ -
      (A : ℚ) * ((m : ℚ) / W)| < 1 := by
  have hW : 0 < W := by omega
  have h2024 : (2 : ℕ) ^ 20 < 2 ^ 24 := by norm_num
  have hAex : (f32ofNat A).toQ = (A : ℚ) := f32ofNat_exact A hA (by omega)
  have hWex : (f32ofNat W).toQ = (W : ℚ) := f32ofNat_exact W hW (by omega)
  have hmex : (f32ofNat m).toQ = (m : ℚ) := f32ofNat_exact m hm (by omega)
  have hApos : (0 : ℚ) < A := by exact_mod_cast hA
  have hWpos : (0 : ℚ) < W := by exact_mod_cast hW
  have hAm : 0 < (f32ofNat A).m := (toQ_pos _).mp (by rw [hAex]; exact hApos)
  have hWm : 0 < (f32ofNat W).m := (toQ_pos _).mp (by rw [hWex]; exact hWpos)
  have hmm : 0 < (f32ofNat m).m :=
    (toQ_pos _).mp (by rw [hmex]; exact_mod_cast hm)
  have hserr := f32div_err (f32ofNat m) (f32ofNat W) hmm hWm
  rw [hmex, hWex] at hserr
  obtain ⟨hs_lo, hs_hi⟩ := abs_le.mp hserr
  have hqpos : 0 < (m : ℚ) / W := div_pos (by exact_mod_cast hm) hWpos
  have hq1 : (m : ℚ) / W ≤ 1 := by
    rw [div_le_one hWpos]
    exact_mod_cast le_of_lt hmW
  have hqu : (m : ℚ) / W / 2 ^ 24 < (m : ℚ) / W :=
    div_lt_self hqpos (by norm_num)
  have hspos : 0 < (f32div (f32ofNat m) (f32ofNat W)).toQ := by linarith
  have hsm : 0 < (f32div (f32ofNat m) (f32ofNat W)).m := (toQ_pos _).mp hspos
  have hverr := f32mul_err (f32ofNat A) (f32div (f32ofNat m) (f32ofNat W)) hAm hsm
  rw [hAex] at hverr
  obtain ⟨hv_lo, hv_hi⟩ := abs_le.mp hverr
  have h1 := mul_le_mul_of_nonneg_left hs_hi hApos.le
  have h1l := mul_le_mul_of_nonneg_left hs_lo hApos.le
  have hAq : (A : ℚ) * ((m : ℚ) / W) ≤ 2 ^ 20 := by
    have hAle : (A : ℚ) ≤ 2 ^ 20 := by exact_mod_cast hAb
    nlinarith
  have hAqpos : 0 < (A : ℚ) * ((m : ℚ) / W) := mul_pos hApos hqpos
  rw [abs_lt]
  constructor
  · nlinarith
  · nlinarith

set_option maxHeartbeats 1600000 in
/-- C7 counterexample: the float computation misses the claimed exact
dimensions.  For a 22 x 11 image with `max_dim = 13` the new width is 12,
not `max_dim = 13` (`fl32(13/22)` rounds down and `22 * fl32(13/22)`
truncates to 12); for a 4897 x 1328 image with `max_dim = 1652` the new
height is 447 while `⌊1328 * 1652 / 4897⌋ = 448`. -/
theorem downscale_dims_float_counterexample :
    (scaled_dims 22 11 13).1 = 12 ∧ (scaled_dims 22 11 13).1 ≠ 13 ∧
    (scaled_dims 4897 1328 1652).2 = 447 ∧ 1328 * 1652 / 4897 = 448 :=
  ⟨by decide, by decide, by decide, by norm_num⟩

/-- C7 amended: the scale factor and the scaled dimensions are computed in
IEEE f32, so each truncated result can land next to the exact value rather
than on it: for `W > H`, `0 < max_dim < W`, and dimensions within the
exactly representable range (`W ≤ 2 ^ 20`), the new width is `max_dim` or
`max_dim - 1`, and the new height is within one of
`⌊H * max_dim / W⌋`. -/
theorem downscale_dims_near_exact (W H m : Nat)
    (hH : 0 < H) (hHW : H < W) (hm : 0 < m) (hmW : m < W) (hWb : W ≤ 2 ^ 20) :
    (m - 1 ≤ (scaled_dims W H m).1 ∧ (scaled_dims W H m).1 ≤ m) ∧
    ((scaled_dims W H m).2 ≤ H * m / W + 1 ∧
      H * m / W ≤ (scaled_dims W H m).2 + 1) := by
  have hW : 0 < W := by omega
  have hmaxWH : max W H = W := max_eq_left (le_of_lt hHW)
  have hWpos : (0 : ℚ) < W := by exact_mod_cast hW
  have hwidth := f32_scaled_close W m W hW hWb hm hmW hWb
  have hheight := f32_scaled_close H m W hH (le_trans (le_of_lt hHW) hWb) hm hmW hWb
  obtain ⟨hw_lo, hw_hi⟩ := abs_lt.mp hwidth
  obtain ⟨hh_lo, hh_hi⟩ := abs_lt.mp hheight
  have hWq : (W : ℚ) * ((m : ℚ) / W) = m := by field_simp
  rw [hWq] at hw_lo hw_hi
  have hHq : (H : ℚ) * ((m : ℚ) / W) = ((H * m : ℕ) : ℚ) / W := by
    push_cast
    ring
  rw [hHq] at hh_lo hh_hi
  have hfst : (scaled_dims W H m).1 =
      f32toU32 (f32mul (f32ofNat W) (f32div (f32ofNat m) (f32ofNat W))) := by
    rw [scaled_dims, hmaxWH]
  have hsnd : (scaled_dims W H m).2 =
      f32toU32 (f32mul (f32ofNat H) (f32div (f32ofNat m) (f32ofNat W))) := by
    rw [scaled_dims, hmaxWH]
  have hx0nn : (0 : ℚ) ≤ ((H * m : ℕ) : ℚ) / W := by positivity
  have hx0floor : ⌊((H * m : ℕ) : ℚ) / (W : ℚ)⌋₊ = H * m / W :=
    Nat.floor_div_eq_div (H * m) W
  constructor
  · rw [hfst, f32toU32_eq_floor]
    constructor
    · apply Nat.le_floor
      have hc : ((m - 1 : ℕ) : ℚ) = (m : ℚ) - 1 := by
        push_cast [Nat.cast_sub (by omega : 1 ≤ m)]
        ring
      rw [hc]
      linarith
    · have hlt : ⌊(f32mul (f32ofNat W) (f32div (f32ofNat m) (f32ofNat W))).toQ⌋₊
          < m + 1 := by
        rw [Nat.floor_lt (toQ_nonneg _)]
        push_cast
        linarith
      omega
  · rw [hsnd, f32toU32_eq_floor]
    constructor
    · have hlt : ⌊(f32mul (f32ofNat H) (f32div (f32ofNat m) (f32ofNat W))).toQ⌋₊
          < H * m / W + 2 := by
        rw [Nat.floor_lt (toQ_nonneg _)]
        have hx0lt : ((H * m : ℕ) : ℚ) / W < ⌊((H * m : ℕ) : ℚ) / (W : ℚ)⌋₊ + 1 :=
          Nat.lt_floor_add_one _
        rw [hx0floor] at hx0lt
        push_cast
        linarith
      omega
    · have hfl : (⌊((H * m : ℕ) : ℚ) / (W : ℚ)⌋₊ : ℚ) ≤ ((H * m : ℕ) : ℚ) / W :=
        Nat.floor_le hx0nn
      rw [hx0floor] at hfl
      by_cases hz : H * m / W = 0
      · omega
      · have hge : (H * m / W - 1 : ℕ) ≤
            ⌊(f32mul (f32ofNat H) (f32div (f32ofNat m) (f32ofNat W))).toQ⌋₊ := by
          apply Nat.le_floor
          have hc : ((H * m / W - 1 : ℕ) : ℚ) = ((H * m / W : ℕ) : ℚ) - 1 := by
            push_cast [Nat.cast_sub (by omega : 1 ≤ H * m / W)]
            ring
          rw [hc]
          linarith
        omega

/-- C7 amended witness: a 4000 x 3000 image downscaled to 1568 keeps the
width within `{1567, 1568}` and the height within one of
`⌊3000 * 1568 / 4000⌋ = 1176`. -/
theorem downscale_dims_near_exact_witness :
    (1568 - 1 ≤ (scaled_dims 4000 3000 1568).1 ∧
      (scaled_dims 4000 3000 1568).1 ≤ 1568) ∧
    ((scaled_dims 4000 3000 1568).2 ≤ 3000 * 1568 / 4000 + 1 ∧
      3000 * 1568 / 4000 ≤ (scaled_dims 4000 3000 1568).2 + 1) :=
  downscale_dims_near_exact 4000 3000 1568 (by norm_num) (by norm_num)
    (by norm_num) (by norm_num) (by norm_num)

end Wcb
